import Mathlib

/-!
Verification of the catalog cross-match / merge utilities of
`frb/surveys/catalog_utils.py`.

The tabular data model (astropy `Table`) is embedded shallowly: a table is a
list of column names together with a list of rows, each row a list of rational
cell values aligned with the column list.  The external nearest-neighbour
matcher `SkyCoord.match_to_catalog_sky` (the SpatialMatcher collaborator) is
abstracted by its two output arrays `idx` and `d2d`, which the embedded
functions take as extra arguments; its contract (`idx.length = d2d.length =
cat1.rows.length`, separations attached index-wise to catalog-1 rows) enters
the theorems as hypotheses.  Floating-point transcendental arithmetic
(`10 ** x`) is abstracted by an arbitrary function `pow10` passed as an
argument.  Astropy table primitives (`hstack`, `vstack`, `join`, `setdiff`,
`remove_columns`, `rename_columns`, row masking) are modelled from their
documented semantics as used at the call sites in this file; the trailing
`.filled(-999.)` of the merge is folded into the stacking operations, which
write the sentinel `-999` directly into structurally absent cells.
-/

namespace FRB

/-- A table cell value; the numeric contents of a catalog are modelled as
rationals. -/
abbrev Val := ℚ

/-- A table row: cell values aligned with the column list of the table. -/
abbrev Row := List Val

/-- An astropy `Table`: an ordered list of named columns and a list of rows. -/
structure Table where
  cols : List String
  rows : List Row
deriving DecidableEq

/-- Index of column `c` in a column list (first occurrence). -/
def colIdx (cols : List String) (c : String) : ℕ := cols.indexOf c

/-- The value of column `c` in row `r` (0 when the column is absent; astropy
would raise instead, and we only use this where the column exists). -/
def getVal (cols : List String) (r : Row) (c : String) : Val :=
  r.getD (colIdx cols c) 0

/-- Boolean-mask row selection, the numpy idiom `xs[mask]`. -/
def boolMask : List α → List Bool → List α
  | x :: xs, b :: bs => if b then x :: boolMask xs bs else boolMask xs bs
  | _, _ => []

/-- Positions (starting at offset `k`) whose separation is strictly below the
tolerance `s`; the accepted matches of `xmatch_catalogs`. -/
def keptPosAux (s : Val) : List Val → ℕ → List ℕ
  | [], _ => []
  | d :: ds, k => if d < s then k :: keptPosAux s ds (k + 1) else keptPosAux s ds (k + 1)

/-- Row positions of catalog 1 whose nearest-neighbour separation is strictly
below the tolerance: the accepted matches. -/
def keptPositions (d2d : List Val) (s : Val) : List ℕ := keptPosAux s d2d 0

/-- `xmatch_catalogs` (catalog_utils.py lines 167-214): after the column
asserts, the matcher output is filtered by `d2d < skydist` (strict) and the
two index-aligned row subsets are returned.  `idx`/`d2d` are the outputs of
the external matcher `match_to_catalog_sky` (index into `cat2` and separation
of the nearest neighbour of each `cat1` row). -/
def xmatch_catalogs (cat1 cat2 : Table) (idx : List ℕ) (d2d : List Val)
    (skydist : Val) (RACol1 DecCol1 RACol2 DecCol2 : String) :
    Except String (Table × Table) :=
  if ¬ (RACol1 ∈ cat1.cols ∧ DecCol1 ∈ cat1.cols) then
    Except.error "Could not find either RA or Dec in cat1"
  else if ¬ (RACol2 ∈ cat2.cols ∧ DecCol2 ∈ cat2.cols) then
    Except.error "Could not find either RA or Dec in cat2"
  else
    let keep := d2d.map (fun d => decide (d < skydist))
    let match1 : Table := ⟨cat1.cols, boolMask cat1.rows keep⟩
    let match2 : Table :=
      ⟨cat2.cols, (boolMask idx keep).map (fun j => cat2.rows.getD j [])⟩
    Except.ok (match1, match2)

/-- A Python value appearing in the `table_names` tuple: a string, or an
object of some other type. -/
inductive PyStr where
  | str (s : String)
  | nonstr
deriving DecidableEq

/-- The `type(x) == str` test of the validation code. -/
def PyStr.isStr : PyStr → Bool
  | .str _ => true
  | .nonstr => false

/-- The underlying string (the validated code paths only reach this on
string entries). -/
def PyStr.get : PyStr → String
  | .str s => s
  | .nonstr => ""

/-- Astropy name disambiguation: a column whose name also occurs in the other
table is suffixed with an underscore and the label of that table. -/
def suffixIfShared (other : List String) (n : String) (c : String) : String :=
  if c ∈ other then c ++ "_" ++ n else c

/-- Astropy `hstack([t1, t2], table_names=(n1, n2))`: columns side by side,
colliding names suffixed per table label; rows concatenated pairwise. -/
def hstack (t1 t2 : Table) (n1 n2 : String) : Table :=
  ⟨t1.cols.map (suffixIfShared t2.cols n1) ++ t2.cols.map (suffixIfShared t1.cols n2),
   List.zipWith (fun r1 r2 => r1 ++ r2) t1.rows t2.rows⟩

/-- Astropy `Table.remove_columns`: drop the named columns and the
corresponding cell of every row. -/
def removeColumns (t : Table) (cs : List String) : Table :=
  ⟨t.cols.filter (fun c => decide (c ∉ cs)),
   t.rows.map (fun r => ((t.cols.zip r).filter (fun p => decide (p.1 ∉ cs))).map Prod.snd)⟩

/-- Lookup of a replacement name in a rename association list. -/
def lookupRename (pairs : List (String × String)) (c : String) : String :=
  match pairs.find? (fun p => p.1 == c) with
  | some p => p.2
  | none => c

/-- Astropy `Table.rename_columns(olds, news)`. -/
def renameColumns (t : Table) (olds news : List String) : Table :=
  ⟨t.cols.map (lookupRename (olds.zip news)), t.rows⟩

/-- Astropy `setdiff(t1, t2)` with default keys (all columns of `t1`): the
rows of `t1` whose full content does not occur in `t2`.  The claims stated
about it are insensitive to row order, so the key-sorting that astropy
performs internally is not modelled. -/
def setdiff (t1 t2 : Table) : Table :=
  ⟨t1.cols, t1.rows.filter (fun r => decide (r ∉ t2.rows))⟩

/-- The join keys of the residual merge, `['ra', 'dec']`. -/
def mergeKeys : List String := ["ra", "dec"]

/-- The non-key columns of a column list. -/
def nonKeyCols (cols : List String) : List String :=
  cols.filter (fun c => decide (c ∉ mergeKeys))

/-- The `(ra, dec)` key of a row. -/
def rowKey (cols : List String) (r : Row) : Val × Val :=
  (getVal cols r "ra", getVal cols r "dec")

/-- The non-key cells of a row. -/
def nonKeyVals (cols : List String) (r : Row) : Row :=
  ((cols.zip r).filter (fun p => decide (p.1 ∉ mergeKeys))).map Prod.snd

/-- A run of `n` sentinel cells standing for masked values after
`.filled(-999.)`. -/
def sentinelRow (n : ℕ) : Row := List.replicate n (-999)

/-- Astropy `join(t1, t2, keys=['ra','dec'], join_type='outer',
table_names=(n1, n2))`, with masked cells already filled with the sentinel:
rows with equal keys are combined (one output row per key-equal pair), rows
without a partner appear once, the counterpart cells sentinel-filled. -/
def joinOuter (t1 t2 : Table) (n1 n2 : String) : Table :=
  ⟨mergeKeys ++ (nonKeyCols t1.cols).map (suffixIfShared (nonKeyCols t2.cols) n1)
      ++ (nonKeyCols t2.cols).map (suffixIfShared (nonKeyCols t1.cols) n2),
   (t1.rows.flatMap (fun r1 =>
      if (t2.rows.filter (fun r2 =>
            decide (rowKey t2.cols r2 = rowKey t1.cols r1))).isEmpty then
        [[(rowKey t1.cols r1).1, (rowKey t1.cols r1).2] ++ nonKeyVals t1.cols r1
           ++ sentinelRow (nonKeyCols t2.cols).length]
      else
        (t2.rows.filter (fun r2 =>
            decide (rowKey t2.cols r2 = rowKey t1.cols r1))).map (fun r2 =>
          [(rowKey t1.cols r1).1, (rowKey t1.cols r1).2] ++ nonKeyVals t1.cols r1
            ++ nonKeyVals t2.cols r2)))
    ++ ((t2.rows.filter (fun r2 =>
          decide (∀ r1 ∈ t1.rows, rowKey t1.cols r1 ≠ rowKey t2.cols r2))).map
        (fun r2 => [(rowKey t2.cols r2).1, (rowKey t2.cols r2).2]
            ++ sentinelRow (nonKeyCols t1.cols).length ++ nonKeyVals t2.cols r2))⟩

/-- One row of a stacked table: the source row rearranged onto the merged
column list, structurally absent columns filled with the sentinel. -/
def projectRow (srcCols : List String) (r : Row) (dstCols : List String) : Row :=
  dstCols.map (fun c =>
    match srcCols.indexOf? c with
    | some j => r.getD j (-999)
    | none => -999)

/-- The merged column list of a vertical stack: columns of `t1`, then the
columns only `t2` has. -/
def vstackCols (c1 c2 : List String) : List String :=
  c1 ++ c2.filter (fun c => decide (c ∉ c1))

/-- Astropy `vstack([t1, t2])` with the default outer column merge, masked
cells already filled with the sentinel (`.filled(-999.)` is applied to every
return path of the merge). -/
def vstack (t1 t2 : Table) : Table :=
  ⟨vstackCols t1.cols t2.cols,
   t1.rows.map (fun r => projectRow t1.cols r (vstackCols t1.cols t2.cols))
     ++ t2.rows.map (fun r => projectRow t2.cols r (vstackCols t1.cols t2.cols))⟩

/-- The input validation at the head of `xmatch_and_merge_cats` (lines
446-451): the `table_names` length and type asserts, then the `ra`/`dec`
column asserts on both tables, in source order.  Returns the message of the
first failing assert, `none` when validation passes. -/
def merge_validate (tab1 tab2 : Table) (table_names : List PyStr) : Option String :=
  if table_names.length ≠ 2 then
    some "Invalid number of table names for two tables."
  else if ¬ ((table_names.getD 0 PyStr.nonstr).isStr = true
             ∧ (table_names.getD 1 PyStr.nonstr).isStr = true) then
    some "Table names should be strings."
  else if ¬ ("ra" ∈ tab1.cols ∧ "dec" ∈ tab1.cols) then
    some "Table 1 does not have column ra and/or dec."
  else if ¬ ("ra" ∈ tab2.cols ∧ "dec" ∈ tab2.cols) then
    some "Table 2 does not have column ra and/or dec."
  else none

/-- The inner merge of the matched subsets (lines 456-466): `hstack` with the
table labels, removal of the suffixed coordinate columns of table 2, rename of
the suffixed coordinate columns of table 1 back to `ra`/`dec`. -/
def innerJoin (m1 m2 : Table) (n1 n2 : String) : Table :=
  renameColumns (removeColumns (hstack m1 m2 n1 n2) ["ra_" ++ n2, "dec_" ++ n2])
    ["ra_" ++ n1, "dec_" ++ n1] ["ra", "dec"]

/-- The residual stacking of the merge (lines 474-487): outer join of the two
residual sets on `(ra, dec)` when both are non-empty, else stack the
non-empty one (if any) below the inner merge. -/
def mergeStack (inner nm1 nm2 : Table) (n1 n2 : String) : Table :=
  if nm1.rows.length ≠ 0 ∧ nm2.rows.length ≠ 0 then
    vstack inner (joinOuter nm1 nm2 n1 n2)
  else if nm1.rows.length ≠ 0 ∧ nm2.rows.length = 0 then
    vstack inner nm1
  else if nm1.rows.length = 0 ∧ nm2.rows.length ≠ 0 then
    vstack inner nm2
  else inner

/-- The body of the merge after a successful cross-match (lines 456-493):
inner merge, content-based residuals, residual stacking, cleanup of leftover
literally-named `ra_1`/`dec_1`/`ra_2`/`dec_2` columns. -/
def mergeBody (tab1 tab2 m1 m2 : Table) (n1 n2 : String) : Table :=
  removeColumns
    (mergeStack (innerJoin m1 m2 n1 n2) (setdiff tab1 m1) (setdiff tab2 m2) n1 n2)
    ["ra_1", "dec_1", "ra_2", "dec_2"]

/-- `xmatch_and_merge_cats` (catalog_utils.py lines 429-493).  After
validation: cross-match; `hstack` the matched subsets and keep the coordinates of table 1; content-based `setdiff` for the residuals; outer-join the two
residual sets on `(ra, dec)` when both are non-empty, else stack the
non-empty one (if any); remove leftover literally-named `ra_1`/`dec_1`/
`ra_2`/`dec_2` columns; fill masked cells with `-999`. -/
def xmatch_and_merge_cats (tab1 tab2 : Table) (idx : List ℕ) (d2d : List Val)
    (tol : Val) (table_names : List PyStr) : Except String Table :=
  match merge_validate tab1 tab2 table_names with
  | some e => Except.error e
  | none =>
    match xmatch_catalogs tab1 tab2 idx d2d tol "ra" "dec" "ra" "dec" with
    | Except.error e => Except.error e
    | Except.ok (m1, m2) =>
      Except.ok (mergeBody tab1 tab2 m1 m2
        (table_names.getD 0 PyStr.nonstr).get (table_names.getD 1 PyStr.nonstr).get)

/-- Number of rows of a fallible table result (0 on error). -/
def rowsLen : Except String Table → ℕ
  | Except.ok t => t.rows.length
  | Except.error _ => 0

/-- `_mags_to_flux` (catalog_utils.py lines 276-308), elementwise over the
magnitude column.  The float operation `10 ** x` is abstracted by the
argument `pow10`; `zpt` is `zpt_flux.value`.  Magnitudes below `-10` yield
the sentinel `-99`; otherwise `zpt * 10 ** (-mag / 2.5)`.  With an error
column, errors that are negative or equal to the `999` flag yield a `-99`
flux error; otherwise `flux * (10 ** (err / 2.5) - 1)`, with `flux` the
already-converted value at the same position. -/
def mags_to_flux (pow10 : Val → Val) (zpt : Val) (mags : List Val)
    (magErr : Option (List Val)) : List Val × Option (List Val) :=
  let flux := mags.map (fun m => if m < -10 then (-99 : Val) else zpt * pow10 (-m / 2.5))
  match magErr with
  | none => (flux, none)
  | some errs =>
      (flux, some ((flux.zip errs).map (fun p =>
        if p.2 < 0 ∨ p.2 = 999 then (-99 : Val)
        else p.1 * (pow10 (p.2 / 2.5) - 1))))

/-- Row comparison by the value of the id column: the order used by
`unique_tab.sort(idcol)`. -/
def rowLe (cols : List String) (idcol : String) (a b : Row) : Prop :=
  getVal cols a idcol ≤ getVal cols b idcol

instance (cols : List String) (idcol : String) : DecidableRel (rowLe cols idcol) :=
  fun a b => inferInstanceAs (Decidable (getVal cols a idcol ≤ getVal cols b idcol))

instance (cols : List String) (idcol : String) : IsTotal Row (rowLe cols idcol) :=
  ⟨fun _ _ => le_total _ _⟩

instance (cols : List String) (idcol : String) : IsTrans Row (rowLe cols idcol) :=
  ⟨fun _ _ _ h h2 => le_trans h h2⟩

/-- The row-removal loop of `remove_duplicates`: numpy drops every row whose
id equals the id of the row directly above it in the sorted table (`prev` is
the preceding original row, whether or not it was kept). -/
def dropAdjacentDupAux (key : Row → Val) (prev : Row) : List Row → List Row
  | [] => []
  | r :: rs =>
      if key r = key prev then dropAdjacentDupAux key r rs
      else r :: dropAdjacentDupAux key r rs

/-- Drop the rows whose id repeats the id of the directly preceding row. -/
def dropAdjacentDup (key : Row → Val) : List Row → List Row
  | [] => []
  | r :: rs => r :: dropAdjacentDupAux key r rs

/-- `remove_duplicates` (catalog_utils.py lines 403-427): copy, assert the id
column exists, sort the copy by it, and drop rows whose id equals that of the
preceding sorted row. -/
def remove_duplicates (tab : Table) (idcol : String) : Except String Table :=
  if idcol ∉ tab.cols then
    Except.error "not a column in the given table"
  else
    let sorted := List.insertionSort (rowLe tab.cols idcol) tab.rows
    Except.ok ⟨tab.cols, dropAdjacentDup (fun r => getVal tab.cols r idcol) sorted⟩

/-- The caller-visible effect of a call to `xmatch_catalogs`: the values the
two input bindings hold after the call, alongside the returned value.  Every
statement of the body is a read of `cat1`/`cat2` or a binding of a fresh
local (slicing allocates new tables), so the inputs thread through
unchanged. -/
structure XmatchEffect where
  cat1After : Table
  cat2After : Table
  output : Except String (Table × Table)

/-- State-threading run of `xmatch_catalogs`: the body never rebinds or
mutates `cat1`/`cat2` (no in-place astropy call targets them), so they are
returned as they came in. -/
def xmatch_catalogs_run (cat1 cat2 : Table) (idx : List ℕ) (d2d : List Val)
    (skydist : Val) (RACol1 DecCol1 RACol2 DecCol2 : String) : XmatchEffect :=
  ⟨cat1, cat2, xmatch_catalogs cat1 cat2 idx d2d skydist RACol1 DecCol1 RACol2 DecCol2⟩

/-- The caller-visible effect of a call to `xmatch_and_merge_cats`. -/
structure MergeEffect where
  tab1After : Table
  tab2After : Table
  output : Except String Table

/-- State-threading run of `xmatch_and_merge_cats`: the in-place astropy
mutations of the body (`remove_columns` and `rename_columns` on `inner_join`,
`remove_columns` on `merged`) are applied to locals built by `hstack` /
`join` / `vstack`, which allocate fresh tables; `tab1`/`tab2` are never
written, so they thread through unchanged. -/
def xmatch_and_merge_cats_run (tab1 tab2 : Table) (idx : List ℕ) (d2d : List Val)
    (tol : Val) (table_names : List PyStr) : MergeEffect :=
  ⟨tab1, tab2, xmatch_and_merge_cats tab1 tab2 idx d2d tol table_names⟩

/-- The caller-visible effect of a call to `remove_duplicates`. -/
structure DedupEffect where
  tabAfter : Table
  output : Except String Table

/-- State-threading run of `remove_duplicates`: the body first copies
(`unique_tab = tab.copy()`) and the in-place `sort` and `remove_rows` hit the
copy only, so the input threads through unchanged. -/
def remove_duplicates_run (tab : Table) (idcol : String) : DedupEffect :=
  ⟨tab, remove_duplicates tab idcol⟩

/-! ### Lemmas about the mask filter and the accepted match positions -/

theorem boolMask_cons (x : α) (xs : List α) (b : Bool) (bs : List Bool) :
    boolMask (x :: xs) (b :: bs) = if b then x :: boolMask xs bs else boolMask xs bs := rfl

theorem keptPosAux_le (s : Val) :
    ∀ (ds : List Val) (k : ℕ), ∀ i ∈ keptPosAux s ds k, k ≤ i := by
  intro ds
  induction ds with
  | nil => intro k i hi; simp [keptPosAux] at hi
  | cons d ds ih =>
    intro k i hi
    by_cases hd : d < s
    · simp only [keptPosAux, if_pos hd, List.mem_cons] at hi
      rcases hi with rfl | hi
      · exact Nat.le_refl _
      · exact Nat.le_of_succ_le (ih (k + 1) i hi)
    · simp only [keptPosAux, if_neg hd] at hi
      exact Nat.le_of_succ_le (ih (k + 1) i hi)

theorem keptPosAux_pairwise (s : Val) :
    ∀ (ds : List Val) (k : ℕ), (keptPosAux s ds k).Pairwise (· < ·) := by
  intro ds
  induction ds with
  | nil => intro k; simp [keptPosAux]
  | cons d ds ih =>
    intro k
    by_cases hd : d < s
    · simp only [keptPosAux, if_pos hd]
      refine List.Pairwise.cons ?_ (ih (k + 1))
      intro j hj
      exact Nat.lt_of_succ_le (keptPosAux_le s ds (k + 1) j hj)
    · simp only [keptPosAux, if_neg hd]
      exact ih (k + 1)

theorem keptPosAux_mem (s : Val) :
    ∀ (ds : List Val) (k i : ℕ),
      i ∈ keptPosAux s ds k ↔ k ≤ i ∧ i - k < ds.length ∧ ds.getD (i - k) 0 < s := by
  intro ds
  induction ds with
  | nil => intro k i; simp [keptPosAux]
  | cons d ds ih =>
    intro k i
    constructor
    · intro hi
      by_cases hd : d < s
      · simp only [keptPosAux, if_pos hd, List.mem_cons] at hi
        rcases hi with rfl | hi
        · exact ⟨Nat.le_refl _, by simp, by simpa using hd⟩
        · obtain ⟨h1, h2, h3⟩ := (ih (k + 1) i).mp hi
          have hik : i - k = (i - (k + 1)) + 1 := by omega
          refine ⟨Nat.le_of_succ_le h1, by rw [hik]; simpa using h2, ?_⟩
          rw [hik, List.getD_cons_succ]
          exact h3
      · simp only [keptPosAux, if_neg hd] at hi
        obtain ⟨h1, h2, h3⟩ := (ih (k + 1) i).mp hi
        have hik : i - k = (i - (k + 1)) + 1 := by omega
        refine ⟨Nat.le_of_succ_le h1, by rw [hik]; simpa using h2, ?_⟩
        rw [hik, List.getD_cons_succ]
        exact h3
    · rintro ⟨h1, h2, h3⟩
      by_cases hik : i = k
      · subst hik
        rw [Nat.sub_self] at h3
        rw [List.getD_cons_zero] at h3
        simp [keptPosAux, if_pos h3]
      · have h1' : k + 1 ≤ i := by omega
        have hsk : i - k = (i - (k + 1)) + 1 := by omega
        rw [hsk, List.getD_cons_succ] at h3
        rw [hsk] at h2
        have hmem : i ∈ keptPosAux s ds (k + 1) :=
          (ih (k + 1) i).mpr ⟨h1', by simpa using h2, h3⟩
        by_cases hd : d < s
        · simp [keptPosAux, if_pos hd, hmem]
        · simpa [keptPosAux, if_neg hd] using hmem

theorem keptPositions_mem (d2d : List Val) (s : Val) (i : ℕ) :
    i ∈ keptPositions d2d s ↔ i < d2d.length ∧ d2d.getD i 0 < s := by
  unfold keptPositions
  rw [keptPosAux_mem]
  constructor
  · rintro ⟨_, h2, h3⟩
    rw [Nat.sub_zero] at h2 h3
    exact ⟨h2, h3⟩
  · rintro ⟨h2, h3⟩
    exact ⟨Nat.zero_le _, by rwa [Nat.sub_zero], by rwa [Nat.sub_zero]⟩

theorem keptPositions_sorted (d2d : List Val) (s : Val) :
    (keptPositions d2d s).Pairwise (· < ·) :=
  keptPosAux_pairwise s d2d 0

theorem boolMask_eq_map (s : Val) (dflt : α) :
    ∀ (ds : List Val) (xs : List α) (k : ℕ), xs.length = ds.length →
      boolMask xs (ds.map (fun d => decide (d < s)))
        = (keptPosAux s ds k).map (fun i => xs.getD (i - k) dflt) := by
  intro ds
  induction ds with
  | nil =>
    intro xs k h
    rw [List.length_nil] at h
    rw [List.eq_nil_of_length_eq_zero h]
    simp [boolMask, keptPosAux]
  | cons d ds ih =>
    intro xs k h
    cases xs with
    | nil => simp at h
    | cons x xs =>
      simp only [List.length_cons] at h
      have h' : xs.length = ds.length := by omega
      rw [List.map_cons, boolMask_cons]
      by_cases hd : d < s
      · rw [if_pos (by simpa using hd)]
        rw [keptPosAux, if_pos hd, List.map_cons]
        congr 1
        · rw [Nat.sub_self, List.getD_cons_zero]
        · rw [ih xs (k + 1) h']
          refine List.map_congr_left (fun i hi => ?_)
          have hk1 : k + 1 ≤ i := keptPosAux_le s ds (k + 1) i hi
          have hsk : i - k = (i - (k + 1)) + 1 := by omega
          rw [hsk, List.getD_cons_succ]
      · rw [if_neg (by simpa using hd)]
        rw [keptPosAux, if_neg hd]
        rw [ih xs (k + 1) h']
        refine List.map_congr_left (fun i hi => ?_)
        have hk1 : k + 1 ≤ i := keptPosAux_le s ds (k + 1) i hi
        have hsk : i - k = (i - (k + 1)) + 1 := by omega
        rw [hsk, List.getD_cons_succ]

theorem boolMask_eq_map_zero (s : Val) (dflt : α) (ds : List Val) (xs : List α)
    (h : xs.length = ds.length) :
    boolMask xs (ds.map (fun d => decide (d < s)))
      = (keptPositions ds s).map (fun i => xs.getD i dflt) := by
  rw [keptPositions, boolMask_eq_map s dflt ds xs 0 h]
  exact List.map_congr_left (fun i _ => by rw [Nat.sub_zero])

/-- Successful `xmatch_catalogs` calls have both coordinate columns present in
both catalogs, and return the mask-filtered row subsets. -/
theorem xmatch_catalogs_ok (cat1 cat2 : Table) (idx : List ℕ) (d2d : List Val)
    (skydist : Val) (RACol1 DecCol1 RACol2 DecCol2 : String) (m1 m2 : Table)
    (h : xmatch_catalogs cat1 cat2 idx d2d skydist RACol1 DecCol1 RACol2 DecCol2
          = Except.ok (m1, m2)) :
    (RACol1 ∈ cat1.cols ∧ DecCol1 ∈ cat1.cols)
    ∧ (RACol2 ∈ cat2.cols ∧ DecCol2 ∈ cat2.cols)
    ∧ m1 = ⟨cat1.cols, boolMask cat1.rows (d2d.map (fun d => decide (d < skydist)))⟩
    ∧ m2 = ⟨cat2.cols, (boolMask idx (d2d.map (fun d => decide (d < skydist)))).map
              (fun j => cat2.rows.getD j [])⟩ := by
  unfold xmatch_catalogs at h
  split at h
  · simp at h
  · split at h
    · simp at h
    · rename_i h1 h2
      simp only [Except.ok.injEq, Prod.mk.injEq] at h
      exact ⟨not_not.mp h1, not_not.mp h2, h.1.symm, h.2.symm⟩

/-- C2: in `xmatch_catalogs` a pair whose separation equals the tolerance
`skydist` exactly is NOT retained (the comparison `d2d < skydist` is strict),
while a pair with separation strictly below the tolerance IS retained: the
rows of the returned `match1` are exactly those of `cat1` at the accepted
positions, position `i` is rejected when `d2d[i] = skydist` and accepted when
`d2d[i] < skydist`. -/
theorem xmatch_tolerance_boundary (cat1 cat2 : Table) (idx : List ℕ)
    (d2d : List Val) (skydist : Val) (m1 m2 : Table)
    (hlen : cat1.rows.length = d2d.length)
    (h : xmatch_catalogs cat1 cat2 idx d2d skydist "ra" "dec" "ra" "dec"
          = Except.ok (m1, m2)) (i : ℕ) :
    m1.rows = (keptPositions d2d skydist).map (fun j => cat1.rows.getD j [])
    ∧ (d2d.getD i 0 = skydist → i ∉ keptPositions d2d skydist)
    ∧ (i < d2d.length → d2d.getD i 0 < skydist → i ∈ keptPositions d2d skydist) := by
  obtain ⟨_, _, hm1, _⟩ :=
    xmatch_catalogs_ok cat1 cat2 idx d2d skydist "ra" "dec" "ra" "dec" m1 m2 h
  refine ⟨?_, ?_, ?_⟩
  · rw [hm1]
    exact boolMask_eq_map_zero skydist [] d2d cat1.rows hlen
  · intro he hmem
    obtain ⟨_, hlt⟩ := (keptPositions_mem d2d skydist i).mp hmem
    rw [he] at hlt
    exact lt_irrefl _ hlt
  · intro h1 h2
    exact (keptPositions_mem d2d skydist i).mpr ⟨h1, h2⟩

/-- Witness for C2 at a concrete input: `d2d = [5, 3]`, tolerance `5`; the
pair at position 0 (separation exactly 5) is dropped, the pair at position 1
(separation 3) is kept. -/
theorem xmatch_tolerance_boundary_witness :
    (Table.mk ["ra", "dec"] [[3, 4]]).rows
        = (keptPositions [5, 3] 5).map
            (fun j => (Table.mk ["ra", "dec"] [[1, 2], [3, 4]]).rows.getD j [])
    ∧ ((0 : ℕ) ∉ keptPositions [5, 3] 5)
    ∧ ((1 : ℕ) ∈ keptPositions [5, 3] 5) :=
  ⟨(xmatch_tolerance_boundary (Table.mk ["ra", "dec"] [[1, 2], [3, 4]])
      (Table.mk ["ra", "dec"] [[1, 2], [3, 4]]) [0, 1] [5, 3] 5
      (Table.mk ["ra", "dec"] [[3, 4]]) (Table.mk ["ra", "dec"] [[3, 4]])
      (by decide) (by rfl) 0).1,
   (xmatch_tolerance_boundary (Table.mk ["ra", "dec"] [[1, 2], [3, 4]])
      (Table.mk ["ra", "dec"] [[1, 2], [3, 4]]) [0, 1] [5, 3] 5
      (Table.mk ["ra", "dec"] [[3, 4]]) (Table.mk ["ra", "dec"] [[3, 4]])
      (by decide) (by rfl) 0).2.1 (by decide),
   (xmatch_tolerance_boundary (Table.mk ["ra", "dec"] [[1, 2], [3, 4]])
      (Table.mk ["ra", "dec"] [[1, 2], [3, 4]]) [0, 1] [5, 3] 5
      (Table.mk ["ra", "dec"] [[3, 4]]) (Table.mk ["ra", "dec"] [[3, 4]])
      (by decide) (by rfl) 1).2.2 (by decide) (by decide)⟩

/-- C3: the two tables returned by `xmatch_catalogs` have the same length and
are index-aligned: entry `k` of `match1` is the row of `cat1` at the k-th
accepted position `p`, and entry `k` of `match2` is the row of `cat2` the
matcher paired with it (`cat2[idx[p]]`); the accepted positions are strictly
increasing, so `match1` rows appear in ascending original-index order. -/
theorem xmatch_match_alignment (cat1 cat2 : Table) (idx : List ℕ)
    (d2d : List Val) (skydist : Val) (m1 m2 : Table)
    (hlen1 : cat1.rows.length = d2d.length)
    (hlen2 : idx.length = d2d.length)
    (h : xmatch_catalogs cat1 cat2 idx d2d skydist "ra" "dec" "ra" "dec"
          = Except.ok (m1, m2)) :
    m1.rows.length = m2.rows.length
    ∧ m1.rows = (keptPositions d2d skydist).map (fun j => cat1.rows.getD j [])
    ∧ m2.rows = (keptPositions d2d skydist).map
        (fun j => cat2.rows.getD (idx.getD j 0) [])
    ∧ (keptPositions d2d skydist).Pairwise (· < ·) := by
  obtain ⟨_, _, hm1, hm2⟩ :=
    xmatch_catalogs_ok cat1 cat2 idx d2d skydist "ra" "dec" "ra" "dec" m1 m2 h
  have e1 : m1.rows = (keptPositions d2d skydist).map (fun j => cat1.rows.getD j []) := by
    rw [hm1]
    exact boolMask_eq_map_zero skydist [] d2d cat1.rows hlen1
  have e2 : m2.rows = (keptPositions d2d skydist).map
      (fun j => cat2.rows.getD (idx.getD j 0) []) := by
    rw [hm2]
    show (boolMask idx (d2d.map (fun d => decide (d < skydist)))).map
        (fun j => cat2.rows.getD j []) = _
    rw [boolMask_eq_map_zero skydist 0 d2d idx hlen2, List.map_map]
    rfl
  refine ⟨?_, e1, e2, keptPositions_sorted d2d skydist⟩
  rw [e1, e2]
  simp

/-- Witness for C3 at a concrete input: two catalogs of two rows, one
accepted match. -/
theorem xmatch_match_alignment_witness :
    (Table.mk ["ra", "dec"] [[3, 4]]).rows.length
        = (Table.mk ["ra", "dec"] [[10, 20]]).rows.length
    ∧ (Table.mk ["ra", "dec"] [[3, 4]]).rows
        = (keptPositions [5, 3] 5).map
            (fun j => (Table.mk ["ra", "dec"] [[1, 2], [3, 4]]).rows.getD j [])
    ∧ (Table.mk ["ra", "dec"] [[10, 20]]).rows
        = (keptPositions [5, 3] 5).map
            (fun j => (Table.mk ["ra", "dec"] [[10, 20], [30, 40]]).rows.getD
              (([0, 0] : List ℕ).getD j 0) [])
    ∧ (keptPositions [5, 3] 5).Pairwise (· < ·) :=
  xmatch_match_alignment (Table.mk ["ra", "dec"] [[1, 2], [3, 4]])
    (Table.mk ["ra", "dec"] [[10, 20], [30, 40]]) [0, 0] [5, 3] 5
    (Table.mk ["ra", "dec"] [[3, 4]]) (Table.mk ["ra", "dec"] [[10, 20]])
    (by decide) (by decide) (by rfl)

/-- C4: a missing coordinate column makes `xmatch_catalogs` (user-named
RA/Dec columns) and `xmatch_and_merge_cats` (literal `ra`/`dec`) return an
input error; the validation precedes the matcher invocation in both bodies,
and on the error path no table is produced at all. -/
theorem missing_column_error (cat1 cat2 tab1 tab2 : Table) (idx : List ℕ)
    (d2d : List Val) (skydist tol : Val)
    (RACol1 DecCol1 RACol2 DecCol2 n1 n2 : String)
    (hmiss1 : ¬ (RACol1 ∈ cat1.cols ∧ DecCol1 ∈ cat1.cols)
              ∨ ¬ (RACol2 ∈ cat2.cols ∧ DecCol2 ∈ cat2.cols))
    (hmiss2 : ¬ ("ra" ∈ tab1.cols ∧ "dec" ∈ tab1.cols)
              ∨ ¬ ("ra" ∈ tab2.cols ∧ "dec" ∈ tab2.cols)) :
    (∃ e, xmatch_catalogs cat1 cat2 idx d2d skydist RACol1 DecCol1 RACol2 DecCol2
        = Except.error e)
    ∧ (∃ e, xmatch_and_merge_cats tab1 tab2 idx d2d tol [PyStr.str n1, PyStr.str n2]
        = Except.error e) := by
  constructor
  · unfold xmatch_catalogs
    rcases hmiss1 with h | h
    · rw [if_pos h]
      exact ⟨_, rfl⟩
    · by_cases h1 : (RACol1 ∈ cat1.cols ∧ DecCol1 ∈ cat1.cols)
      · rw [if_neg (not_not.mpr h1), if_pos h]
        exact ⟨_, rfl⟩
      · rw [if_pos h1]
        exact ⟨_, rfl⟩
  · have hval : ∃ e, merge_validate tab1 tab2 [PyStr.str n1, PyStr.str n2] = some e := by
      unfold merge_validate
      rw [if_neg (by simp)]
      rw [if_neg (by simp [PyStr.isStr])]
      rcases hmiss2 with h | h
      · rw [if_pos h]
        exact ⟨_, rfl⟩
      · by_cases h1 : ("ra" ∈ tab1.cols ∧ "dec" ∈ tab1.cols)
        · rw [if_neg (not_not.mpr h1), if_pos h]
          exact ⟨_, rfl⟩
        · rw [if_pos h1]
          exact ⟨_, rfl⟩
    obtain ⟨e, he⟩ := hval
    refine ⟨e, ?_⟩
    unfold xmatch_and_merge_cats
    rw [he]

/-- Witness for C4 at a concrete input: catalog 1 lacks `dec`. -/
theorem missing_column_error_witness :
    (∃ e, xmatch_catalogs (Table.mk ["ra"] [[1]]) (Table.mk ["ra", "dec"] [[1, 2]])
        [0] [0] 1 "ra" "dec" "ra" "dec" = Except.error e)
    ∧ (∃ e, xmatch_and_merge_cats (Table.mk ["ra"] [[1]]) (Table.mk ["ra", "dec"] [[1, 2]])
        [0] [0] 1 [PyStr.str "1", PyStr.str "2"] = Except.error e) :=
  missing_column_error (Table.mk ["ra"] [[1]]) (Table.mk ["ra", "dec"] [[1, 2]])
    (Table.mk ["ra"] [[1]]) (Table.mk ["ra", "dec"] [[1, 2]]) [0] [0] 1 1
    "ra" "dec" "ra" "dec" "1" "2" (by decide) (by decide)

/-- C5 (amended): `xmatch_and_merge_cats` signals an input error before any
matching when `table_names` has the wrong length or a non-string entry; two
identical string labels, however, pass the input validation (the code never
compares the two labels). -/
theorem table_names_validation (tab1 tab2 : Table) (idx : List ℕ) (d2d : List Val)
    (tol : Val) (tns : List PyStr) :
    (tns.length ≠ 2 →
      ∃ e, xmatch_and_merge_cats tab1 tab2 idx d2d tol tns = Except.error e)
    ∧ (tns.length = 2 →
       ¬ ((tns.getD 0 PyStr.nonstr).isStr = true ∧ (tns.getD 1 PyStr.nonstr).isStr = true) →
        ∃ e, xmatch_and_merge_cats tab1 tab2 idx d2d tol tns = Except.error e)
    ∧ (∀ s : String, merge_validate tab1 tab2 [PyStr.str s, PyStr.str s]
        = merge_validate tab1 tab2 [PyStr.str s, PyStr.str "other"]) := by
  refine ⟨?_, ?_, ?_⟩
  · intro h
    refine ⟨"Invalid number of table names for two tables.", ?_⟩
    unfold xmatch_and_merge_cats merge_validate
    rw [if_pos h]
  · intro h2 hns
    refine ⟨"Table names should be strings.", ?_⟩
    unfold xmatch_and_merge_cats merge_validate
    rw [if_neg (not_not.mpr h2), if_pos hns]
  · intro s
    unfold merge_validate
    rfl

/-- C5 counterexample: with two identical string labels the input validation
of `xmatch_and_merge_cats` (the full pre-matching assert sequence of lines
446-451, embedded as `merge_validate`) passes, so no input error is signalled
before matching — refuting the claim that identical labels cause a
pre-matching input failure.  (The real call does still fail, but only later,
inside the post-matching column merge, not as the claimed input error.) -/
theorem table_names_identical_cex :
    merge_validate (Table.mk ["ra", "dec"] [[0, 0]]) (Table.mk ["ra", "dec"] [[0, 0]])
        [PyStr.str "1", PyStr.str "1"] = none :=
  rfl

/-- Witness for C5 (amended) at a concrete input: a one-element
`table_names` is rejected with an input error. -/
theorem table_names_validation_witness :
    ∃ e, xmatch_and_merge_cats (Table.mk ["ra", "dec"] [[0, 0]])
        (Table.mk ["ra", "dec"] [[0, 0]]) [0] [0] 1 [PyStr.str "1"]
        = Except.error e :=
  (table_names_validation (Table.mk ["ra", "dec"] [[0, 0]])
    (Table.mk ["ra", "dec"] [[0, 0]]) [0] [0] 1 [PyStr.str "1"]).1 (by decide)

/-- C9: neither cross-match function mutates its inputs: after a call the
tables of the caller hold exactly the value they held before, and the output is a
freshly constructed table.  The state-threading embeddings `*_run` model each
statement of the bodies; no statement writes to the input bindings (the
in-place astropy operations of the merge are applied to locals freshly
allocated by `hstack`/`join`/`vstack`). -/
theorem xmatch_no_input_mutation (cat1 cat2 tab1 tab2 : Table) (idx : List ℕ)
    (d2d : List Val) (skydist tol : Val) (RACol1 DecCol1 RACol2 DecCol2 : String)
    (tns : List PyStr) :
    (xmatch_catalogs_run cat1 cat2 idx d2d skydist RACol1 DecCol1 RACol2 DecCol2).cat1After
        = cat1
    ∧ (xmatch_catalogs_run cat1 cat2 idx d2d skydist RACol1 DecCol1 RACol2 DecCol2).cat2After
        = cat2
    ∧ (xmatch_catalogs_run cat1 cat2 idx d2d skydist RACol1 DecCol1 RACol2 DecCol2).output
        = xmatch_catalogs cat1 cat2 idx d2d skydist RACol1 DecCol1 RACol2 DecCol2
    ∧ (xmatch_and_merge_cats_run tab1 tab2 idx d2d tol tns).tab1After = tab1
    ∧ (xmatch_and_merge_cats_run tab1 tab2 idx d2d tol tns).tab2After = tab2
    ∧ (xmatch_and_merge_cats_run tab1 tab2 idx d2d tol tns).output
        = xmatch_and_merge_cats tab1 tab2 idx d2d tol tns :=
  ⟨rfl, rfl, rfl, rfl, rfl, rfl⟩

/-- C7: the residuals of the merge are computed by a content-based set
difference over all columns: a row of `t1` is in `setdiff t1 t2` exactly when
its full content is absent from `t2`; membership depends only on content, so
two identical rows of `t1` are treated as the same entry (both in or both
out), not excluded per index. -/
theorem setdiff_content_based (t1 t2 : Table) (r : Row) (i j : ℕ) :
    (r ∈ (setdiff t1 t2).rows ↔ r ∈ t1.rows ∧ r ∉ t2.rows)
    ∧ (t1.rows.getD i [] = t1.rows.getD j [] →
        (t1.rows.getD i [] ∈ (setdiff t1 t2).rows
          ↔ t1.rows.getD j [] ∈ (setdiff t1 t2).rows)) := by
  constructor
  · unfold setdiff
    simp [List.mem_filter]
  · intro hij
    rw [hij]

/-- Witness for C7 at a concrete input: `t1` has two identical rows `[1]`
whose content occurs in `t2`; both are excluded together. -/
theorem setdiff_content_based_witness :
    (([2] : Row) ∈ (setdiff (Table.mk ["a"] [[1], [1], [2]]) (Table.mk ["a"] [[1]])).rows
      ↔ ([2] : Row) ∈ (Table.mk ["a"] [[1], [1], [2]]).rows
          ∧ ([2] : Row) ∉ (Table.mk ["a"] [[1]]).rows)
    ∧ ((Table.mk ["a"] [[1], [1], [2]]).rows.getD 0 []
          ∈ (setdiff (Table.mk ["a"] [[1], [1], [2]]) (Table.mk ["a"] [[1]])).rows
        ↔ (Table.mk ["a"] [[1], [1], [2]]).rows.getD 1 []
          ∈ (setdiff (Table.mk ["a"] [[1], [1], [2]]) (Table.mk ["a"] [[1]])).rows) :=
  ⟨(setdiff_content_based (Table.mk ["a"] [[1], [1], [2]]) (Table.mk ["a"] [[1]])
      [2] 0 1).1,
   (setdiff_content_based (Table.mk ["a"] [[1], [1], [2]]) (Table.mk ["a"] [[1]])
      [2] 0 1).2 (by decide)⟩

/-! ### Lemmas for positional access -/

theorem getD_map_of_lt (f : α → β) (l : List α) (i : ℕ) (hi : i < l.length)
    (d : α) (d2 : β) : (l.map f).getD i d2 = f (l.getD i d) := by
  rw [List.getD_eq_getElem l d hi, List.getD_eq_getElem (l.map f) d2 (by simpa using hi)]
  simp

theorem getD_zip_of_lt (l1 : List α) (l2 : List β) (i : ℕ)
    (h1 : i < l1.length) (h2 : i < l2.length) (d1 : α) (d2 : β) :
    (l1.zip l2).getD i (d1, d2) = (l1.getD i d1, l2.getD i d2) := by
  rw [List.getD_eq_getElem _ _ (by rw [List.length_zip]; omega),
      List.getD_eq_getElem _ _ h1, List.getD_eq_getElem _ _ h2]
  simp

/-- C8: `_mags_to_flux` substitutes sentinels instead of raising: a magnitude
below the validity floor `-10` yields flux `-99`; any other magnitude is
converted by the zero-point formula `zpt * 10 ** (-mag / 2.5)`; a magnitude
error that is negative or equal to the `999` flag yields flux error `-99`,
any other by `flux * (10 ** (err / 2.5) - 1)`.  The function is total: the
output columns always exist, with the same length as the input. -/
theorem mags_to_flux_sentinels (pow10 : Val → Val) (zpt : Val)
    (mags errs : List Val) (i : ℕ)
    (hlen : errs.length = mags.length) (hi : i < mags.length) :
    (mags_to_flux pow10 zpt mags (some errs)).1.length = mags.length
    ∧ (mags.getD i 0 < -10 →
        (mags_to_flux pow10 zpt mags (some errs)).1.getD i 0 = -99)
    ∧ (¬ mags.getD i 0 < -10 →
        (mags_to_flux pow10 zpt mags (some errs)).1.getD i 0
          = zpt * pow10 (-(mags.getD i 0) / 2.5))
    ∧ (errs.getD i 0 < 0 ∨ errs.getD i 0 = 999 →
        ((mags_to_flux pow10 zpt mags (some errs)).2.getD []).getD i 0 = -99)
    ∧ (¬ (errs.getD i 0 < 0 ∨ errs.getD i 0 = 999) →
        ((mags_to_flux pow10 zpt mags (some errs)).2.getD []).getD i 0
          = (mags_to_flux pow10 zpt mags (some errs)).1.getD i 0
              * (pow10 (errs.getD i 0 / 2.5) - 1)) := by
  have hflux : (mags_to_flux pow10 zpt mags (some errs)).1
      = mags.map (fun m => if m < -10 then (-99 : Val) else zpt * pow10 (-m / 2.5)) := rfl
  have herr : (mags_to_flux pow10 zpt mags (some errs)).2.getD []
      = ((mags.map (fun m => if m < -10 then (-99 : Val) else zpt * pow10 (-m / 2.5))).zip
          errs).map (fun p =>
            if p.2 < 0 ∨ p.2 = 999 then (-99 : Val)
            else p.1 * (pow10 (p.2 / 2.5) - 1)) := rfl
  have hfluxlen : (mags.map (fun m =>
      if m < -10 then (-99 : Val) else zpt * pow10 (-m / 2.5))).length = mags.length := by
    simp
  have hzip : ((mags.map (fun m =>
        if m < -10 then (-99 : Val) else zpt * pow10 (-m / 2.5))).zip errs).getD i (0, 0)
      = ((mags.map (fun m =>
          if m < -10 then (-99 : Val) else zpt * pow10 (-m / 2.5))).getD i 0,
         errs.getD i 0) :=
    getD_zip_of_lt _ _ i (by rw [hfluxlen]; exact hi) (by rw [hlen]; exact hi) 0 0
  refine ⟨by rw [hflux]; simp, ?_, ?_, ?_, ?_⟩
  · intro h
    rw [hflux, getD_map_of_lt _ _ i hi 0 0, if_pos h]
  · intro h
    rw [hflux, getD_map_of_lt _ _ i hi 0 0, if_neg h]
  · intro h
    rw [herr, getD_map_of_lt _ _ i (by rw [List.length_zip, hfluxlen, hlen]; omega) (0, 0) 0,
        hzip]
    exact if_pos h
  · intro h
    rw [herr, getD_map_of_lt _ _ i (by rw [List.length_zip, hfluxlen, hlen]; omega) (0, 0) 0,
        hzip, hflux]
    exact if_neg h

/-- Witness for C8 at a concrete input: magnitude `-20` (below the floor) and
magnitude error `-1` (negative) both produce the sentinel `-99`. -/
theorem mags_to_flux_sentinels_witness :
    (mags_to_flux (fun q => q) 2 [-20, 5] (some [-1, 4])).1.length
        = ([-20, 5] : List Val).length
    ∧ (mags_to_flux (fun q => q) 2 [-20, 5] (some [-1, 4])).1.getD 0 0 = -99
    ∧ ((mags_to_flux (fun q => q) 2 [-20, 5] (some [-1, 4])).2.getD []).getD 0 0 = -99 :=
  ⟨(mags_to_flux_sentinels (fun q => q) 2 [-20, 5] [-1, 4] 0 (by decide) (by decide)).1,
   (mags_to_flux_sentinels (fun q => q) 2 [-20, 5] [-1, 4] 0 (by decide) (by decide)).2.1
     (by decide),
   (mags_to_flux_sentinels (fun q => q) 2 [-20, 5] [-1, 4] 0 (by decide) (by decide)).2.2.2.1
     (by decide)⟩

/-! ### Lemmas about the duplicate-removal loop -/

theorem dropAdjacentDupAux_subset (key : Row → Val) :
    ∀ (l : List Row) (prev : Row), ∀ r ∈ dropAdjacentDupAux key prev l, r ∈ l := by
  intro l
  induction l with
  | nil => intro prev r hr; simp [dropAdjacentDupAux] at hr
  | cons x xs ih =>
    intro prev r hr
    unfold dropAdjacentDupAux at hr
    by_cases hx : key x = key prev
    · rw [if_pos hx] at hr
      exact List.mem_cons_of_mem x (ih x r hr)
    · rw [if_neg hx] at hr
      rcases List.mem_cons.mp hr with rfl | hr
      · exact List.mem_cons_self _ _
      · exact List.mem_cons_of_mem x (ih x r hr)

theorem dropAdjacentDup_subset (key : Row → Val) (l : List Row) :
    ∀ r ∈ dropAdjacentDup key l, r ∈ l := by
  cases l with
  | nil => intro r hr; simp [dropAdjacentDup] at hr
  | cons x xs =>
    intro r hr
    unfold dropAdjacentDup at hr
    rcases List.mem_cons.mp hr with rfl | hr
    · exact List.mem_cons_self _ _
    · exact List.mem_cons_of_mem x (dropAdjacentDupAux_subset key xs x r hr)

theorem dropAdjacentDupAux_keys (key : Row → Val) :
    ∀ (l : List Row) (prev : Row), ∀ r ∈ l,
      key r = key prev ∨ key r ∈ (dropAdjacentDupAux key prev l).map key := by
  intro l
  induction l with
  | nil => intro prev r hr; simp at hr
  | cons x xs ih =>
    intro prev r hr
    unfold dropAdjacentDupAux
    by_cases hx : key x = key prev
    · rw [if_pos hx]
      rcases List.mem_cons.mp hr with rfl | hr
      · exact Or.inl hx
      · rcases ih x r hr with h | h
        · exact Or.inl (h.trans hx)
        · exact Or.inr h
    · rw [if_neg hx]
      rcases List.mem_cons.mp hr with rfl | hr
      · exact Or.inr (by rw [List.map_cons]; exact List.mem_cons_self _ _)
      · rcases ih x r hr with h | h
        · exact Or.inr (by rw [List.map_cons]; exact List.mem_cons.mpr (Or.inl h))
        · exact Or.inr (by rw [List.map_cons]; exact List.mem_cons_of_mem _ h)

theorem dropAdjacentDup_keys_complete (key : Row → Val) (l : List Row) :
    ∀ r ∈ l, key r ∈ (dropAdjacentDup key l).map key := by
  cases l with
  | nil => intro r hr; simp at hr
  | cons x xs =>
    intro r hr
    unfold dropAdjacentDup
    rw [List.map_cons]
    rcases List.mem_cons.mp hr with rfl | hr
    · exact List.mem_cons_self _ _
    · rcases dropAdjacentDupAux_keys key xs x r hr with h | h
      · exact List.mem_cons.mpr (Or.inl h)
      · exact List.mem_cons_of_mem _ h

theorem dropAdjacentDupAux_lt (key : Row → Val) :
    ∀ (l : List Row) (prev : Row),
      l.Pairwise (fun a b => key a ≤ key b) →
      (∀ r ∈ l, key prev ≤ key r) →
      (∀ r ∈ dropAdjacentDupAux key prev l, key prev < key r)
      ∧ (dropAdjacentDupAux key prev l).Pairwise (fun a b => key a < key b) := by
  intro l
  induction l with
  | nil =>
    intro prev _ _
    exact ⟨by simp [dropAdjacentDupAux], by simp [dropAdjacentDupAux]⟩
  | cons x xs ih =>
    intro prev hp hge
    rw [List.pairwise_cons] at hp
    obtain ⟨hx_le, hxs⟩ := hp
    obtain ⟨ih1, ih2⟩ := ih x hxs hx_le
    unfold dropAdjacentDupAux
    by_cases hx : key x = key prev
    · rw [if_pos hx]
      refine ⟨fun r hr => ?_, ih2⟩
      have h := ih1 r hr
      rw [hx] at h
      exact h
    · rw [if_neg hx]
      have hprevx : key prev < key x :=
        lt_of_le_of_ne (hge x (List.mem_cons_self x xs)) (fun h => hx h.symm)
      constructor
      · intro r hr
        rcases List.mem_cons.mp hr with rfl | hr
        · exact hprevx
        · exact lt_trans hprevx (ih1 r hr)
      · exact List.Pairwise.cons (fun r hr => ih1 r hr) ih2

theorem dropAdjacentDup_pairwise (key : Row → Val) (l : List Row)
    (hl : l.Pairwise (fun a b => key a ≤ key b)) :
    (dropAdjacentDup key l).Pairwise (fun a b => key a < key b) := by
  cases l with
  | nil => simp [dropAdjacentDup]
  | cons x xs =>
    rw [List.pairwise_cons] at hl
    obtain ⟨hx_le, hxs⟩ := hl
    obtain ⟨h1, h2⟩ := dropAdjacentDupAux_lt key xs x hxs hx_le
    unfold dropAdjacentDup
    exact List.Pairwise.cons h1 h2

/-- C10: `remove_duplicates` keeps exactly one row per distinct id value
(the id column of the result has no duplicates and covers exactly the id
values of the input), every kept row is a row of the input table (taken from
the table sorted by the id column), the column set is unchanged, and the
input table itself is left unchanged (the body mutates only its copy). -/
theorem remove_duplicates_unique (tab : Table) (idcol : String) (u : Table)
    (h : remove_duplicates tab idcol = Except.ok u) :
    (u.rows.map (fun r => getVal tab.cols r idcol)).Nodup
    ∧ (∀ q, q ∈ u.rows.map (fun r => getVal tab.cols r idcol)
          ↔ q ∈ tab.rows.map (fun r => getVal tab.cols r idcol))
    ∧ (∀ r ∈ u.rows, r ∈ tab.rows)
    ∧ u.cols = tab.cols
    ∧ (remove_duplicates_run tab idcol).tabAfter = tab := by
  unfold remove_duplicates at h
  split at h
  · simp at h
  · simp only [Except.ok.injEq] at h
    subst h
    have hsorted : (List.insertionSort (rowLe tab.cols idcol) tab.rows).Pairwise
        (fun a b => getVal tab.cols a idcol ≤ getVal tab.cols b idcol) :=
      List.sorted_insertionSort (rowLe tab.cols idcol) tab.rows
    have hmemsort : ∀ r : Row,
        r ∈ List.insertionSort (rowLe tab.cols idcol) tab.rows ↔ r ∈ tab.rows :=
      fun r => List.mem_insertionSort (rowLe tab.cols idcol)
    refine ⟨?_, ?_, ?_, rfl, rfl⟩
    · show (List.map (fun r => getVal tab.cols r idcol) _).Pairwise (· ≠ ·)
      rw [List.pairwise_map]
      exact (dropAdjacentDup_pairwise _ _ hsorted).imp (fun hab => ne_of_lt hab)
    · intro q
      constructor
      · intro hq
        obtain ⟨r, hr, rfl⟩ := List.mem_map.mp hq
        have hr2 : r ∈ tab.rows :=
          (hmemsort r).mp (dropAdjacentDup_subset _ _ r hr)
        exact List.mem_map.mpr ⟨r, hr2, rfl⟩
      · intro hq
        obtain ⟨r, hr, rfl⟩ := List.mem_map.mp hq
        exact dropAdjacentDup_keys_complete _ _ r ((hmemsort r).mpr hr)
    · intro r hr
      exact (hmemsort r).mp (dropAdjacentDup_subset _ _ r hr)

/-- Witness for C10 at a concrete input: ids `[2, 1, 2]` reduce to one row
per id, drawn from the sorted table, and the input is unchanged. -/
theorem remove_duplicates_unique_witness :
    ((Table.mk ["id", "x"] [[1, 8], [2, 7]]).rows.map
        (fun r => getVal (Table.mk ["id", "x"] [[2, 7], [1, 8], [2, 9]]).cols r "id")).Nodup
    ∧ ((2 : Val) ∈ (Table.mk ["id", "x"] [[1, 8], [2, 7]]).rows.map
          (fun r => getVal (Table.mk ["id", "x"] [[2, 7], [1, 8], [2, 9]]).cols r "id")
        ↔ (2 : Val) ∈ (Table.mk ["id", "x"] [[2, 7], [1, 8], [2, 9]]).rows.map
          (fun r => getVal (Table.mk ["id", "x"] [[2, 7], [1, 8], [2, 9]]).cols r "id"))
    ∧ (([1, 8] : Row) ∈ (Table.mk ["id", "x"] [[2, 7], [1, 8], [2, 9]]).rows)
    ∧ (Table.mk ["id", "x"] [[1, 8], [2, 7]]).cols
        = (Table.mk ["id", "x"] [[2, 7], [1, 8], [2, 9]]).cols
    ∧ (remove_duplicates_run (Table.mk ["id", "x"] [[2, 7], [1, 8], [2, 9]]) "id").tabAfter
        = Table.mk ["id", "x"] [[2, 7], [1, 8], [2, 9]] :=
  ⟨(remove_duplicates_unique (Table.mk ["id", "x"] [[2, 7], [1, 8], [2, 9]]) "id"
      (Table.mk ["id", "x"] [[1, 8], [2, 7]]) (by rfl)).1,
   (remove_duplicates_unique (Table.mk ["id", "x"] [[2, 7], [1, 8], [2, 9]]) "id"
      (Table.mk ["id", "x"] [[1, 8], [2, 7]]) (by rfl)).2.1 2,
   (remove_duplicates_unique (Table.mk ["id", "x"] [[2, 7], [1, 8], [2, 9]]) "id"
      (Table.mk ["id", "x"] [[1, 8], [2, 7]]) (by rfl)).2.2.1 [1, 8] (by decide),
   (remove_duplicates_unique (Table.mk ["id", "x"] [[2, 7], [1, 8], [2, 9]]) "id"
      (Table.mk ["id", "x"] [[1, 8], [2, 7]]) (by rfl)).2.2.2.1,
   (remove_duplicates_unique (Table.mk ["id", "x"] [[2, 7], [1, 8], [2, 9]]) "id"
      (Table.mk ["id", "x"] [[1, 8], [2, 7]]) (by rfl)).2.2.2.2⟩

/-! ### Row-count lemmas for the merge pipeline -/

theorem removeColumns_rows_length (t : Table) (cs : List String) :
    (removeColumns t cs).rows.length = t.rows.length := by
  unfold removeColumns
  simp

theorem renameColumns_rows (t : Table) (olds news : List String) :
    (renameColumns t olds news).rows = t.rows := rfl

theorem hstack_rows_length (t1 t2 : Table) (n1 n2 : String) :
    (hstack t1 t2 n1 n2).rows.length = min t1.rows.length t2.rows.length := by
  unfold hstack
  simp [List.length_zipWith]

theorem vstack_rows_length (t1 t2 : Table) :
    (vstack t1 t2).rows.length = t1.rows.length + t2.rows.length := by
  unfold vstack
  simp

theorem innerJoin_rows_length (m1 m2 : Table) (n1 n2 : String) :
    (innerJoin m1 m2 n1 n2).rows.length = min m1.rows.length m2.rows.length := by
  unfold innerJoin
  rw [renameColumns_rows, removeColumns_rows_length, hstack_rows_length]

theorem length_flatMap_singleton (f : α → List β) (l : List α)
    (h : ∀ a ∈ l, (f a).length = 1) : (l.flatMap f).length = l.length := by
  induction l with
  | nil => rfl
  | cons x xs ih =>
    rw [List.flatMap_cons, List.length_append, h x (List.mem_cons_self x xs),
        ih (fun a ha => h a (List.mem_cons_of_mem x ha)), List.length_cons]
    omega

/-- When no residual row of `t1` shares its `(ra, dec)` key with a residual
row of `t2`, the outer join degenerates to the disjoint union of the two row
sets. -/
theorem joinOuter_rows_length_disjoint (t1 t2 : Table) (n1 n2 : String)
    (hdisj : ∀ r1 ∈ t1.rows, ∀ r2 ∈ t2.rows,
      rowKey t1.cols r1 ≠ rowKey t2.cols r2) :
    (joinOuter t1 t2 n1 n2).rows.length = t1.rows.length + t2.rows.length := by
  unfold joinOuter
  rw [List.length_append]
  congr 1
  · apply length_flatMap_singleton
    intro r1 hr1
    have hempty : (t2.rows.filter (fun r2 =>
        decide (rowKey t2.cols r2 = rowKey t1.cols r1))) = [] := by
      rw [List.filter_eq_nil_iff]
      intro r2 hr2
      simp only [decide_eq_true_eq]
      exact fun h => hdisj r1 hr1 r2 hr2 h.symm
    rw [hempty]
    rfl
  · rw [List.length_map]
    congr 1
    apply List.filter_eq_self.mpr
    intro r2 hr2
    simp only [decide_eq_true_eq]
    exact fun r1 hr1 => hdisj r1 hr1 r2 hr2

/-- A successful merge decomposes into a successful cross-match followed by
the merge body. -/
theorem xmatch_and_merge_cats_ok (tab1 tab2 T : Table) (idx : List ℕ)
    (d2d : List Val) (tol : Val) (tns : List PyStr)
    (h : xmatch_and_merge_cats tab1 tab2 idx d2d tol tns = Except.ok T) :
    ∃ m1 m2, xmatch_catalogs tab1 tab2 idx d2d tol "ra" "dec" "ra" "dec"
        = Except.ok (m1, m2)
      ∧ T = mergeBody tab1 tab2 m1 m2
          (tns.getD 0 PyStr.nonstr).get (tns.getD 1 PyStr.nonstr).get := by
  unfold xmatch_and_merge_cats at h
  cases hv : merge_validate tab1 tab2 tns with
  | some e => rw [hv] at h; simp at h
  | none =>
    rw [hv] at h
    cases hx : xmatch_catalogs tab1 tab2 idx d2d tol "ra" "dec" "ra" "dec" with
    | error e => rw [hx] at h; simp at h
    | ok p =>
      obtain ⟨m1, m2⟩ := p
      rw [hx] at h
      simp only [Except.ok.injEq] at h
      exact ⟨m1, m2, rfl, h.symm⟩

/-- A successful merge with explicit string labels. -/
theorem xmatch_and_merge_cats_ok2 (tab1 tab2 T : Table) (idx : List ℕ)
    (d2d : List Val) (tol : Val) (n1 n2 : String)
    (h : xmatch_and_merge_cats tab1 tab2 idx d2d tol [PyStr.str n1, PyStr.str n2]
        = Except.ok T) :
    ∃ m1 m2, xmatch_catalogs tab1 tab2 idx d2d tol "ra" "dec" "ra" "dec"
        = Except.ok (m1, m2)
      ∧ T = mergeBody tab1 tab2 m1 m2 n1 n2 :=
  xmatch_and_merge_cats_ok tab1 tab2 T idx d2d tol [PyStr.str n1, PyStr.str n2] h

/-- C1 (amended): when no residual row of `tab1` shares its `(ra, dec)` pair
with a residual row of `tab2` (so the outer join of the residuals introduces
no combining and no multiplication), the merged row count equals
`|accepted match pairs| + |residual of tab1| + |residual of tab2|`, the
residuals being the content-based set differences the code computes.  The
unamended per-row exactly-once reading fails in general: a many-to-one match
duplicates a `tab2` row across inner rows, and residuals sharing `(ra, dec)`
are combined or multiplied by the outer join (see the counterexample). -/
theorem merge_row_count (tab1 tab2 m1 m2 T : Table) (idx : List ℕ)
    (d2d : List Val) (tol : Val) (n1 n2 : String)
    (hlen1 : tab1.rows.length = d2d.length)
    (hlen2 : idx.length = d2d.length)
    (hx : xmatch_catalogs tab1 tab2 idx d2d tol "ra" "dec" "ra" "dec"
        = Except.ok (m1, m2))
    (hmerge : xmatch_and_merge_cats tab1 tab2 idx d2d tol
        [PyStr.str n1, PyStr.str n2] = Except.ok T)
    (hdisj : ∀ r1 ∈ (setdiff tab1 m1).rows, ∀ r2 ∈ (setdiff tab2 m2).rows,
        rowKey tab1.cols r1 ≠ rowKey tab2.cols r2) :
    T.rows.length = (keptPositions d2d tol).length
      + (setdiff tab1 m1).rows.length + (setdiff tab2 m2).rows.length := by
  obtain ⟨m1', m2', hx', hT⟩ :=
    xmatch_and_merge_cats_ok2 tab1 tab2 T idx d2d tol n1 n2 hmerge
  rw [hx] at hx'
  simp only [Except.ok.injEq, Prod.mk.injEq] at hx'
  obtain ⟨e1, e2⟩ := hx'
  subst e1
  subst e2
  obtain ⟨_, _, hm1, hm2⟩ :=
    xmatch_catalogs_ok tab1 tab2 idx d2d tol "ra" "dec" "ra" "dec" m1 m2 hx
  have hl1 : m1.rows.length = (keptPositions d2d tol).length := by
    rw [hm1]
    show (boolMask tab1.rows _).length = _
    rw [boolMask_eq_map_zero tol [] d2d tab1.rows hlen1]
    simp
  have hl2 : m2.rows.length = (keptPositions d2d tol).length := by
    rw [hm2]
    show ((boolMask idx _).map _).length = _
    rw [List.length_map, boolMask_eq_map_zero tol 0 d2d idx hlen2]
    simp
  subst hT
  unfold mergeBody
  rw [removeColumns_rows_length]
  unfold mergeStack
  by_cases h1 : (setdiff tab1 m1).rows.length ≠ 0 ∧ (setdiff tab2 m2).rows.length ≠ 0
  · rw [if_pos h1, vstack_rows_length, innerJoin_rows_length, hl1, hl2, min_self,
        joinOuter_rows_length_disjoint _ _ n1 n2 hdisj]
    omega
  · by_cases h2 : (setdiff tab1 m1).rows.length ≠ 0 ∧ (setdiff tab2 m2).rows.length = 0
    · rw [if_neg h1, if_pos h2, vstack_rows_length, innerJoin_rows_length, hl1, hl2,
          min_self]
      omega
    · by_cases h3 : (setdiff tab1 m1).rows.length = 0 ∧ (setdiff tab2 m2).rows.length ≠ 0
      · rw [if_neg h1, if_neg h2, if_pos h3, vstack_rows_length, innerJoin_rows_length,
            hl1, hl2, min_self]
        omega
      · rw [if_neg h1, if_neg h2, if_neg h3, innerJoin_rows_length, hl1, hl2, min_self]
        omega

/-- C1 counterexample: `tab1` has one row, `tab2` two rows, nothing within
tolerance, but all three rows share `(ra, dec) = (0, 0)`.  The outer join of
the residuals pairs the `tab1` row with BOTH `tab2` rows, so the merged table
has 2 rows while `|matched| + |unmatched tab1| + |unmatched tab2| = 0 + 1 + 2
= 3`: the row-conservation equation of the claim is false, and the `tab1` row
appears in two output rows rather than exactly once. -/
theorem merge_row_count_cex :
    xmatch_catalogs (Table.mk ["ra", "dec"] [[0, 0]])
        (Table.mk ["ra", "dec", "z"] [[0, 0, 1], [0, 0, 2]]) [0] [5] 1
        "ra" "dec" "ra" "dec"
      = Except.ok (Table.mk ["ra", "dec"] [], Table.mk ["ra", "dec", "z"] [])
    ∧ rowsLen (xmatch_and_merge_cats (Table.mk ["ra", "dec"] [[0, 0]])
        (Table.mk ["ra", "dec", "z"] [[0, 0, 1], [0, 0, 2]]) [0] [5] 1
        [PyStr.str "1", PyStr.str "2"])
      ≠ (keptPositions [5] 1).length
        + (setdiff (Table.mk ["ra", "dec"] [[0, 0]])
            (Table.mk ["ra", "dec"] [])).rows.length
        + (setdiff (Table.mk ["ra", "dec", "z"] [[0, 0, 1], [0, 0, 2]])
            (Table.mk ["ra", "dec", "z"] [])).rows.length :=
  ⟨rfl, by decide⟩

/-- Witness for C1 (amended) at a concrete input: two rows against one, one
accepted match, residuals key-disjoint; counts agree (2 = 1 + 1 + 0). -/
theorem merge_row_count_witness :
    (Table.mk ["ra", "dec"] [[0, 0], [50, 50]]).rows.length = ([0, 70] : List Val).length
    ∧ (Table.mk ["ra", "dec"] [[0, 0], [50, 50]]).rows.length
        = (keptPositions [0, 70] 1).length
          + (setdiff (Table.mk ["ra", "dec"] [[0, 0], [50, 50]])
              (Table.mk ["ra", "dec"] [[0, 0]])).rows.length
          + (setdiff (Table.mk ["ra", "dec"] [[0, 0]])
              (Table.mk ["ra", "dec"] [[0, 0]])).rows.length :=
  ⟨by decide,
   merge_row_count (Table.mk ["ra", "dec"] [[0, 0], [50, 50]])
     (Table.mk ["ra", "dec"] [[0, 0]]) (Table.mk ["ra", "dec"] [[0, 0]])
     (Table.mk ["ra", "dec"] [[0, 0]])
     (Table.mk ["ra", "dec"] [[0, 0], [50, 50]]) [0, 0] [0, 70] 1 "1" "2"
     (by decide) (by decide) (by rfl) (by rfl) (by decide)⟩

/-! ### String lemmas for the suffixed coordinate column names -/

theorem suffixed_ne_of_no_underscore (c n s : String)
    (hs : ('_' : Char) ∉ s.data) : c ++ "_" ++ n ≠ s := by
  intro h
  apply hs
  rw [← h, String.data_append, String.data_append]
  refine List.mem_append.mpr (Or.inl (List.mem_append.mpr (Or.inr ?_)))
  show ('_' : Char) ∈ ("_" : String).data
  decide

theorem key_ne_suffixed (k p a : String) (hk : ('_' : Char) ∉ k.data)
    (hp : ('_' : Char) ∈ p.data) : k ≠ p ++ a := by
  intro h
  apply hk
  rw [h, String.data_append]
  exact List.mem_append.mpr (Or.inl hp)

theorem suffix_cancel (c d n : String) (h : c ++ "_" ++ n = d ++ "_" ++ n) : c = d := by
  have hd := congrArg String.data h
  rw [String.data_append, String.data_append, String.data_append,
      String.data_append] at hd
  exact String.ext (List.append_cancel_right (List.append_cancel_right hd))

theorem label_cancel (p a b : String) (h : p ++ a = p ++ b) : a = b := by
  have hd := congrArg String.data h
  rw [String.data_append, String.data_append] at hd
  exact String.ext (List.append_cancel_left hd)

theorem ra_suffix_ne_dec_suffix (a b : String) : "ra_" ++ a ≠ "dec_" ++ b := by
  intro h
  have hd := congrArg String.data h
  rw [String.data_append, String.data_append] at hd
  rw [show ("ra_" : String).data = ['r', 'a', '_'] from rfl,
      show ("dec_" : String).data = ['d', 'e', 'c', '_'] from rfl] at hd
  rw [List.cons_append, List.cons_append, List.cons_append, List.nil_append,
      List.cons_append, List.cons_append, List.cons_append, List.cons_append,
      List.nil_append] at hd
  injection hd with h1 _
  exact absurd h1 (by decide)

theorem append_underscore_ra (n : String) : "ra" ++ "_" ++ n = "ra_" ++ n := by
  rw [show ("ra" ++ "_" : String) = "ra_" by decide]

theorem append_underscore_dec (n : String) : "dec" ++ "_" ++ n = "dec_" ++ n := by
  rw [show ("dec" ++ "_" : String) = "dec_" by decide]

/-! ### Column-count lemmas -/

theorem count_map_zero (l : List String) (f : String → String) (a : String)
    (h : ∀ x ∈ l, f x ≠ a) : (l.map f).count a = 0 := by
  rw [List.count_eq_zero]
  intro hmem
  obtain ⟨x, hx, hfx⟩ := List.mem_map.mp hmem
  exact h x hx hfx

theorem count_map_eq (l : List String) (f : String → String) (a b : String)
    (h : ∀ x ∈ l, f x = a ↔ x = b) : (l.map f).count a = l.count b := by
  induction l with
  | nil => rfl
  | cons x xs ih =>
    rw [List.map_cons, List.count_cons, List.count_cons,
        ih (fun y hy => h y (List.mem_cons_of_mem x hy))]
    have hx := h x (List.mem_cons_self x xs)
    by_cases hb : x = b
    · rw [if_pos (beq_iff_eq.mpr (hx.mpr hb)), if_pos (beq_iff_eq.mpr hb)]
    · rw [if_neg (fun hh => hb (hx.mp (beq_iff_eq.mp hh))),
          if_neg (fun hh => hb (beq_iff_eq.mp hh))]

theorem count_filter_of_pos (l : List String) (p : String → Bool) (a : String)
    (h : p a = true) : (l.filter p).count a = l.count a := by
  induction l with
  | nil => rfl
  | cons x xs ih =>
    rw [List.count_cons]
    by_cases hx : p x = true
    · rw [List.filter_cons_of_pos hx, List.count_cons, ih]
    · rw [List.filter_cons_of_neg (by simpa using hx), ih]
      have hxa : ¬ ((x == a) = true) := fun hh => hx (by rw [beq_iff_eq.mp hh]; exact h)
      rw [if_neg hxa, Nat.add_zero]

theorem count_filter_of_neg (l : List String) (p : String → Bool) (a : String)
    (h : p a = false) : (l.filter p).count a = 0 := by
  rw [List.count_eq_zero]
  intro hmem
  have hp := List.of_mem_filter hmem
  rw [h] at hp
  exact Bool.noConfusion hp

theorem removeColumns_count (t : Table) (cs : List String) (a : String)
    (h : a ∉ cs) : (removeColumns t cs).cols.count a = t.cols.count a := by
  show (t.cols.filter _).count a = _
  exact count_filter_of_pos _ _ _ (decide_eq_true h)

/-- After `hstack`, a coordinate name shared by both tables is gone: every
shared column was suffixed (and a suffixed name contains an underscore). -/
theorem hstack_count_key_zero (t1 t2 : Table) (n1 n2 a : String)
    (ha : ('_' : Char) ∉ a.data) (h1 : a ∈ t1.cols) (h2 : a ∈ t2.cols) :
    (hstack t1 t2 n1 n2).cols.count a = 0 := by
  have f1 : ∀ c ∈ t1.cols, suffixIfShared t2.cols n1 c ≠ a := by
    intro c hc
    unfold suffixIfShared
    by_cases hmem : c ∈ t2.cols
    · rw [if_pos hmem]
      exact suffixed_ne_of_no_underscore c n1 a ha
    · rw [if_neg hmem]
      intro hca
      exact hmem (by rw [hca]; exact h2)
  have f2 : ∀ c ∈ t2.cols, suffixIfShared t1.cols n2 c ≠ a := by
    intro c hc
    unfold suffixIfShared
    by_cases hmem : c ∈ t1.cols
    · rw [if_pos hmem]
      exact suffixed_ne_of_no_underscore c n2 a ha
    · rw [if_neg hmem]
      intro hca
      exact hmem (by rw [hca]; exact h1)
  show (t1.cols.map (suffixIfShared t2.cols n1)
      ++ t2.cols.map (suffixIfShared t1.cols n2)).count a = 0
  rw [List.count_append, count_map_zero _ _ _ f1, count_map_zero _ _ _ f2]

/-- After `hstack`, the table-1 suffixed version of a coordinate name occurs
exactly once, provided it is fresh and no table-2 column suffixes to it. -/
theorem hstack_count_coord_suffix (t1 t2 : Table) (n1 n2 k s : String)
    (hs : k ++ "_" ++ n1 = s)
    (hnd1 : t1.cols.Nodup) (hk1 : k ∈ t1.cols) (hk2 : k ∈ t2.cols)
    (hf1 : s ∉ t1.cols) (hf2 : s ∉ t2.cols)
    (hother : ∀ c ∈ t2.cols, c ++ "_" ++ n2 ≠ s) :
    (hstack t1 t2 n1 n2).cols.count s = 1 := by
  subst hs
  have e1 : (t1.cols.map (suffixIfShared t2.cols n1)).count (k ++ "_" ++ n1)
      = t1.cols.count k := by
    apply count_map_eq
    intro c hc
    unfold suffixIfShared
    constructor
    · intro heq
      by_cases hmem : c ∈ t2.cols
      · rw [if_pos hmem] at heq
        exact suffix_cancel c k n1 heq
      · rw [if_neg hmem] at heq
        exact absurd (by rw [← heq]; exact hc) hf1
    · intro hck
      subst hck
      rw [if_pos hk2]
  have e2 : (t2.cols.map (suffixIfShared t1.cols n2)).count (k ++ "_" ++ n1) = 0 := by
    apply count_map_zero
    intro c hc
    unfold suffixIfShared
    by_cases hmem : c ∈ t1.cols
    · rw [if_pos hmem]
      exact hother c hc
    · rw [if_neg hmem]
      intro hceq
      exact hf2 (by rw [← hceq]; exact hc)
  show (t1.cols.map (suffixIfShared t2.cols n1)
      ++ t2.cols.map (suffixIfShared t1.cols n2)).count (k ++ "_" ++ n1) = 1
  rw [List.count_append, e1, e2, List.count_eq_one_of_mem hnd1 hk1]

theorem lookupRename_pair_eval (a b x y c : String) :
    lookupRename ([a, b].zip [x, y]) c
      = if c = a then x else if c = b then y else c := by
  unfold lookupRename
  rw [show [a, b].zip [x, y] = [(a, x), (b, y)] from rfl]
  by_cases hca : c = a
  · subst hca
    rw [if_pos rfl]
    rw [List.find?_cons_of_pos _ (by simp)]
  · rw [if_neg hca]
    rw [List.find?_cons_of_neg _ (by simp; exact fun h => hca h.symm)]
    by_cases hcb : c = b
    · subst hcb
      rw [if_pos rfl]
      rw [List.find?_cons_of_pos _ (by simp)]
    · rw [if_neg hcb]
      rw [List.find?_cons_of_neg _ (by simp; exact fun h => hcb h.symm)]
      rfl

/-- Renaming the two suffixed coordinate names back to `ra`/`dec` produces
exactly one `ra` and one `dec` column. -/
theorem renameColumns_count_pair (t : Table) (rn dn : String)
    (hrd : rn ≠ dn)
    (hra : t.cols.count "ra" = 0) (hdec : t.cols.count "dec" = 0)
    (hrn : t.cols.count rn = 1) (hdn : t.cols.count dn = 1) :
    (renameColumns t [rn, dn] ["ra", "dec"]).cols.count "ra" = 1
    ∧ (renameColumns t [rn, dn] ["ra", "dec"]).cols.count "dec" = 1 := by
  constructor
  · show (t.cols.map (lookupRename ([rn, dn].zip ["ra", "dec"]))).count "ra" = 1
    rw [count_map_eq t.cols _ "ra" rn ?_, hrn]
    intro c hc
    rw [lookupRename_pair_eval]
    constructor
    · intro h
      by_cases h1 : c = rn
      · exact h1
      · rw [if_neg h1] at h
        by_cases h2 : c = dn
        · rw [if_pos h2] at h
          exact absurd h (by decide)
        · rw [if_neg h2] at h
          exact absurd (by rw [← h]; exact hc) (List.count_eq_zero.mp hra)
    · intro h1
      subst h1
      rw [if_pos rfl]
  · show (t.cols.map (lookupRename ([rn, dn].zip ["ra", "dec"]))).count "dec" = 1
    rw [count_map_eq t.cols _ "dec" dn ?_, hdn]
    intro c hc
    rw [lookupRename_pair_eval]
    constructor
    · intro h
      by_cases h1 : c = rn
      · rw [if_pos h1] at h
        exact absurd h (by decide)
      · rw [if_neg h1] at h
        by_cases h2 : c = dn
        · exact h2
        · rw [if_neg h2] at h
          exact absurd (by rw [← h]; exact hc) (List.count_eq_zero.mp hdec)
    · intro h2
      subst h2
      rw [if_neg (fun h => hrd h.symm), if_pos rfl]

/-- The outer join has exactly one `ra` and one `dec` column: the keys come
first, and the non-key columns (suffixed or not) can never be named `ra` or
`dec`. -/
theorem joinOuter_count (t1 t2 : Table) (n1 n2 : String) :
    (joinOuter t1 t2 n1 n2).cols.count "ra" = 1
    ∧ (joinOuter t1 t2 n1 n2).cols.count "dec" = 1 := by
  have hmap : ∀ (cols other : List String) (n a : String), a ∈ mergeKeys →
      ('_' : Char) ∉ a.data →
      ((nonKeyCols cols).map (suffixIfShared (nonKeyCols other) n)).count a = 0 := by
    intro cols other n a ha hnu
    apply count_map_zero
    intro c hc
    unfold suffixIfShared
    by_cases hmem : c ∈ nonKeyCols other
    · rw [if_pos hmem]
      exact suffixed_ne_of_no_underscore c n a hnu
    · rw [if_neg hmem]
      intro hceq
      have hcf := List.of_mem_filter hc
      rw [hceq] at hcf
      exact (of_decide_eq_true hcf) ha
  constructor
  · show (mergeKeys ++ (nonKeyCols t1.cols).map (suffixIfShared (nonKeyCols t2.cols) n1)
        ++ (nonKeyCols t2.cols).map (suffixIfShared (nonKeyCols t1.cols) n2)).count "ra" = 1
    rw [List.count_append, List.count_append,
        hmap t1.cols t2.cols n1 "ra" (by decide) (by decide),
        hmap t2.cols t1.cols n2 "ra" (by decide) (by decide)]
    rfl
  · show (mergeKeys ++ (nonKeyCols t1.cols).map (suffixIfShared (nonKeyCols t2.cols) n1)
        ++ (nonKeyCols t2.cols).map (suffixIfShared (nonKeyCols t1.cols) n2)).count "dec" = 1
    rw [List.count_append, List.count_append,
        hmap t1.cols t2.cols n1 "dec" (by decide) (by decide),
        hmap t2.cols t1.cols n2 "dec" (by decide) (by decide)]
    rfl

/-- Vertical stacking preserves a unique column of `t1` (the matching column
of `t2` merges into it rather than duplicating). -/
theorem vstack_count (t1 t2 : Table) (a : String) (h1 : t1.cols.count a = 1) :
    (vstack t1 t2).cols.count a = 1 := by
  have hmem : a ∈ t1.cols := by
    by_contra hn
    rw [List.count_eq_zero.mpr hn] at h1
    exact absurd h1 (by decide)
  show (vstackCols t1.cols t2.cols).count a = 1
  unfold vstackCols
  rw [List.count_append, h1,
      count_filter_of_neg _ _ _ (decide_eq_false (not_not_intro hmem))]

/-- Every branch of the residual stacking preserves a unique column of the
inner merge. -/
theorem mergeStack_count (inner nm1 nm2 : Table) (n1 n2 a : String)
    (h : inner.cols.count a = 1) :
    (mergeStack inner nm1 nm2 n1 n2).cols.count a = 1 := by
  unfold mergeStack
  split
  · exact vstack_count _ _ _ h
  · split
    · exact vstack_count _ _ _ h
    · split
      · exact vstack_count _ _ _ h
      · exact h

theorem not_mem_pair {a u v : String} (h1 : a ≠ u) (h2 : a ≠ v) : a ∉ [u, v] := by
  intro h
  rcases List.mem_cons.mp h with h' | h'
  · exact h1 h'
  · rcases List.mem_cons.mp h' with h'' | h''
    · exact h2 h''
    · exact List.not_mem_nil a h''

/-- The inner merge of two matched tables that both carry `ra`/`dec` has
exactly one `ra` and one `dec` column, under the name-hygiene side conditions
(fresh suffixed coordinate names, distinct labels, no table-2 column
suffixing onto a table-1 suffixed coordinate name). -/
theorem innerJoin_count (m1 m2 : Table) (n1 n2 : String)
    (hnd1 : m1.cols.Nodup)
    (h1r : "ra" ∈ m1.cols) (h1d : "dec" ∈ m1.cols)
    (h2r : "ra" ∈ m2.cols) (h2d : "dec" ∈ m2.cols)
    (hne : n1 ≠ n2)
    (hf1r : "ra_" ++ n1 ∉ m1.cols) (hf1d : "dec_" ++ n1 ∉ m1.cols)
    (hf2r : "ra_" ++ n1 ∉ m2.cols) (hf2d : "dec_" ++ n1 ∉ m2.cols)
    (hother : ∀ c ∈ m2.cols, c ++ "_" ++ n2 ≠ "ra_" ++ n1
        ∧ c ++ "_" ++ n2 ≠ "dec_" ++ n1) :
    (innerJoin m1 m2 n1 n2).cols.count "ra" = 1
    ∧ (innerJoin m1 m2 n1 n2).cols.count "dec" = 1 := by
  have hA_ra : (hstack m1 m2 n1 n2).cols.count "ra" = 0 :=
    hstack_count_key_zero m1 m2 n1 n2 "ra" (by decide) h1r h2r
  have hA_dec : (hstack m1 m2 n1 n2).cols.count "dec" = 0 :=
    hstack_count_key_zero m1 m2 n1 n2 "dec" (by decide) h1d h2d
  have hA_rn : (hstack m1 m2 n1 n2).cols.count ("ra_" ++ n1) = 1 :=
    hstack_count_coord_suffix m1 m2 n1 n2 "ra" ("ra_" ++ n1) (append_underscore_ra n1)
      hnd1 h1r h2r hf1r hf2r (fun c hc => (hother c hc).1)
  have hA_dn : (hstack m1 m2 n1 n2).cols.count ("dec_" ++ n1) = 1 :=
    hstack_count_coord_suffix m1 m2 n1 n2 "dec" ("dec_" ++ n1) (append_underscore_dec n1)
      hnd1 h1d h2d hf1d hf2d (fun c hc => (hother c hc).2)
  have hnm_ra : "ra" ∉ ["ra_" ++ n2, "dec_" ++ n2] :=
    not_mem_pair (key_ne_suffixed "ra" "ra_" n2 (by decide) (by decide))
      (key_ne_suffixed "ra" "dec_" n2 (by decide) (by decide))
  have hnm_dec : "dec" ∉ ["ra_" ++ n2, "dec_" ++ n2] :=
    not_mem_pair (key_ne_suffixed "dec" "ra_" n2 (by decide) (by decide))
      (key_ne_suffixed "dec" "dec_" n2 (by decide) (by decide))
  have hnm_rn : "ra_" ++ n1 ∉ ["ra_" ++ n2, "dec_" ++ n2] :=
    not_mem_pair (fun h => hne (label_cancel "ra_" n1 n2 h))
      (ra_suffix_ne_dec_suffix n1 n2)
  have hnm_dn : "dec_" ++ n1 ∉ ["ra_" ++ n2, "dec_" ++ n2] :=
    not_mem_pair (Ne.symm (ra_suffix_ne_dec_suffix n2 n1))
      (fun h => hne (label_cancel "dec_" n1 n2 h))
  unfold innerJoin
  exact renameColumns_count_pair _ ("ra_" ++ n1) ("dec_" ++ n1)
    (ra_suffix_ne_dec_suffix n1 n1)
    (by rw [removeColumns_count _ _ _ hnm_ra]; exact hA_ra)
    (by rw [removeColumns_count _ _ _ hnm_dec]; exact hA_dec)
    (by rw [removeColumns_count _ _ _ hnm_rn]; exact hA_rn)
    (by rw [removeColumns_count _ _ _ hnm_dn]; exact hA_dn)

/-- C6: the merged table has exactly one `ra` column and exactly one `dec`
column — the duplicate coordinate columns of the second matched table are
removed and the remaining suffixed pair renamed back, and neither the
residual join, the stacking, nor the final cleanup reintroduces or drops a
coordinate column.  Hypotheses: both inputs carry `ra`/`dec` (implied by the
successful call), the columns of `tab1` are distinct, the two labels differ, and
the suffixed coordinate names are genuinely fresh (astropy itself would
garble the merge otherwise). -/
theorem merge_coord_uniqueness (tab1 tab2 T : Table) (idx : List ℕ)
    (d2d : List Val) (tol : Val) (n1 n2 : String)
    (hnd1 : tab1.cols.Nodup)
    (hne : n1 ≠ n2)
    (hf1r : "ra_" ++ n1 ∉ tab1.cols) (hf1d : "dec_" ++ n1 ∉ tab1.cols)
    (hf2r : "ra_" ++ n1 ∉ tab2.cols) (hf2d : "dec_" ++ n1 ∉ tab2.cols)
    (hother : ∀ c ∈ tab2.cols, c ++ "_" ++ n2 ≠ "ra_" ++ n1
        ∧ c ++ "_" ++ n2 ≠ "dec_" ++ n1)
    (hmerge : xmatch_and_merge_cats tab1 tab2 idx d2d tol
        [PyStr.str n1, PyStr.str n2] = Except.ok T) :
    T.cols.count "ra" = 1 ∧ T.cols.count "dec" = 1 := by
  obtain ⟨m1, m2, hx, hT⟩ :=
    xmatch_and_merge_cats_ok2 tab1 tab2 T idx d2d tol n1 n2 hmerge
  obtain ⟨⟨h1r, h1d⟩, ⟨h2r, h2d⟩, hm1, hm2⟩ :=
    xmatch_catalogs_ok tab1 tab2 idx d2d tol "ra" "dec" "ra" "dec" m1 m2 hx
  have hc1 : m1.cols = tab1.cols := by rw [hm1]
  have hc2 : m2.cols = tab2.cols := by rw [hm2]
  have hinner := innerJoin_count m1 m2 n1 n2
    (by rw [hc1]; exact hnd1)
    (by rw [hc1]; exact h1r) (by rw [hc1]; exact h1d)
    (by rw [hc2]; exact h2r) (by rw [hc2]; exact h2d)
    hne
    (by rw [hc1]; exact hf1r) (by rw [hc1]; exact hf1d)
    (by rw [hc2]; exact hf2r) (by rw [hc2]; exact hf2d)
    (by rw [hc2]; exact hother)
  subst hT
  unfold mergeBody
  constructor
  · rw [removeColumns_count _ _ _ (by decide)]
    exact mergeStack_count _ _ _ n1 n2 "ra" hinner.1
  · rw [removeColumns_count _ _ _ (by decide)]
    exact mergeStack_count _ _ _ n1 n2 "dec" hinner.2

/-- Witness for C6 at a concrete input: two three-column catalogs, one
matched pair; the merged table has exactly one `ra` and one `dec` column. -/
theorem merge_coord_uniqueness_witness :
    (Table.mk ["ra", "dec", "z", "w"] [[0, 0, 1, 2]]).cols.count "ra" = 1
    ∧ (Table.mk ["ra", "dec", "z", "w"] [[0, 0, 1, 2]]).cols.count "dec" = 1 :=
  merge_coord_uniqueness (Table.mk ["ra", "dec", "z"] [[0, 0, 1]])
    (Table.mk ["ra", "dec", "w"] [[0, 0, 2]])
    (Table.mk ["ra", "dec", "z", "w"] [[0, 0, 1, 2]]) [0] [0] 1 "1" "2"
    (by decide) (by decide) (by decide) (by decide) (by decide) (by decide)
    (by decide) (by rfl)

end FRB
